import Mathlib

/-!
Shallow embedding of the normalization-layer family and the data-feeding
pipeline of the `neuralnet` repository (files `neuralnet/normalization.py`
and `neuralnet/utils.py`), together with theorems settling the frozen
claims about them.

Modelling conventions:
* Scalars are `ℚ` (exact arithmetic standing for the float computations).
* The square root delegated to the tensor library is an explicit function
  parameter `s : ℚ → ℚ`; concrete evaluations instantiate it with `ratSqrt`,
  an integer-square-root based approximation that is exact on perfect
  squares of rationals.
* A tensor whose statistics are taken over some axes is represented with
  the reduced axes flattened into the first index and the statistics axes
  into the second: `x : ℕ → ℕ → ℚ` with explicit bounds, `x i j` being the
  element at reduction position `i < m` and channel (or feature) `j`.
  This is exactly the layout the per-channel formulas compute with.
* 4D tensors for the group/instance/adaptive variants are
  `x : ℕ → ℕ → ℕ → ℕ → ℚ` indexed sample, channel, height, width.
-/

/-- Rational stand-in for the square root used when evaluating the model on
concrete inputs: exact whenever numerator and denominator are perfect
squares, and a floor-style approximation otherwise. -/
def ratSqrt (q : ℚ) : ℚ := (Nat.sqrt q.num.toNat : ℚ) / (Nat.sqrt q.den : ℚ)

/-- `T.clip` of the tensor library: clamp `x` into `[lo, hi]`. -/
def clip (x lo hi : ℚ) : ℚ := min (max x lo) hi

/-- Closed model of the activation functions the normalization layers take
from the activation table (`utils.function`); only the rationally
representable entries the claims exercise are embedded.  `prelu` is the
parametric activation owning the learned coefficient `alpha`. -/
inductive Activation
  | relu
  | linear
  | prelu
  deriving DecidableEq

/-- Apply an activation; `al` is the parametric coefficient (used by
`prelu` only).  `prelu x = 0.5*(1+al)*x + 0.5*(1-al)*|x|` as in
`utils.prelu`. -/
def Activation.apply : Activation → ℚ → ℚ → ℚ
  | .relu, _, x => max x 0
  | .linear, _, x => x
  | .prelu, al, x => (1 + al) / 2 * x + (1 - al) / 2 * |x|

/-- Mean of column `j` over the `m` reduction positions (the batch mean of
one channel). -/
def colMean (m : ℕ) (x : ℕ → ℕ → ℚ) (j : ℕ) : ℚ :=
  (∑ i in Finset.range m, x i j) / m

/-- Biased variance of column `j` over the `m` reduction positions (the
batch variance of one channel, as computed by `T.var`). -/
def colVar (m : ℕ) (x : ℕ → ℕ → ℚ) (j : ℕ) : ℚ :=
  (∑ i in Finset.range m, (x i j - colMean m x j) ^ 2) / m

/-- Output of `T.nnet.bn.batch_normalization_train`: normalize with the
batch statistics, `(x - mean) * (gamma / sqrt(var + eps)) + beta`. -/
def bn_train_out (s : ℚ → ℚ) (m : ℕ) (x : ℕ → ℕ → ℚ) (gamma beta : ℕ → ℚ)
    (eps : ℚ) : ℕ → ℕ → ℚ :=
  fun i j => (x i j - colMean m x j) / s (colVar m x j + eps) * gamma j + beta j

/-- New running mean returned by `T.nnet.bn.batch_normalization_train`:
`running_mean * (1 - factor) + batch_mean * factor`. -/
def bn_new_running_mean (m : ℕ) (x : ℕ → ℕ → ℚ) (factor : ℚ)
    (rm : ℕ → ℚ) : ℕ → ℚ :=
  fun j => rm j * (1 - factor) + colMean m x j * factor

/-- New running variance returned by `T.nnet.bn.batch_normalization_train`:
`running_var * (1 - factor) + (m/(m-1)) * batch_var * factor`, where `m`
is the number of elements each statistic is averaged over (the library
applies the unbiased-variance correction). -/
def bn_new_running_var (m : ℕ) (x : ℕ → ℕ → ℚ) (factor : ℚ)
    (rv : ℕ → ℚ) : ℕ → ℚ :=
  fun j => rv j * (1 - factor) + (m : ℚ) / ((m : ℚ) - 1) * colVar m x j * factor

/-- Output of `T.nnet.bn.batch_normalization_test`: normalize with the
supplied (running) statistics, leaving them untouched. -/
def bn_test_out (s : ℚ → ℚ) (x : ℕ → ℕ → ℚ) (gamma beta mean var : ℕ → ℚ)
    (eps : ℚ) : ℕ → ℕ → ℚ :=
  fun i j => (x i j - mean j) / s (var j + eps) * gamma j + beta j

/-- State of a `BatchNormLayer`: the trainable scale/shift, the running
statistics, the construction-time copies used by `reset`, and the scalar
configuration.  Per-channel vectors are total functions on the channel
index. -/
structure BatchNormState where
  inputShape : List ℕ
  epsilon : ℚ
  running_average_factor : ℚ
  activation : Activation
  alpha : ℚ
  gamma : ℕ → ℚ
  beta : ℕ → ℚ
  running_mean : ℕ → ℚ
  running_var : ℕ → ℚ
  gamma_values : ℕ → ℚ
  beta_values : ℕ → ℚ

/-- `BatchNormLayer.__init__`: gamma to ones, beta to zeros, running mean
and variance to zeros, parametric coefficient to `0.1`. -/
def batchNormInit (input_shape : List ℕ) (eps factor : ℚ)
    (act : Activation) : BatchNormState :=
  { inputShape := input_shape
    epsilon := eps
    running_average_factor := factor
    activation := act
    alpha := 1 / 10
    gamma := fun _ => 1
    beta := fun _ => 0
    running_mean := fun _ => 0
    running_var := fun _ => 0
    gamma_values := fun _ => 1
    beta_values := fun _ => 0 }

/-- `BatchNormLayer.batch_normalization_train` followed by the
`default_update` wiring: the output is the batch-statistics normalization
and the running statistics take the library-returned new values. -/
def BatchNormState.forward_train (s : ℚ → ℚ) (st : BatchNormState) (m : ℕ)
    (x : ℕ → ℕ → ℚ) : (ℕ → ℕ → ℚ) × BatchNormState :=
  (fun i j => st.activation.apply st.alpha
      (bn_train_out s m x st.gamma st.beta st.epsilon i j),
   { st with
      running_mean := bn_new_running_mean m x st.running_average_factor st.running_mean
      running_var := bn_new_running_var m x st.running_average_factor st.running_var })

/-- `BatchNormLayer.batch_normalization_test`: normalize with the frozen
running statistics; no state is written. -/
def BatchNormState.forward_test (s : ℚ → ℚ) (st : BatchNormState)
    (x : ℕ → ℕ → ℚ) : (ℕ → ℕ → ℚ) × BatchNormState :=
  (fun i j => st.activation.apply st.alpha
      (bn_test_out s x st.gamma st.beta st.running_mean st.running_var st.epsilon i j),
   st)

/-- `BatchNormLayer.get_output`: dispatch on the training flag. -/
def BatchNormState.get_output (s : ℚ → ℚ) (st : BatchNormState)
    (training : Bool) (m : ℕ) (x : ℕ → ℕ → ℚ) : (ℕ → ℕ → ℚ) × BatchNormState :=
  if training then st.forward_train s m x else st.forward_test s x

/-- `BatchNormLayer.output_shape`: the input shape fixed at construction. -/
def BatchNormState.output_shape (st : BatchNormState) : List ℕ :=
  st.inputShape

/-- `BatchNormLayer.reset`: restore gamma and beta from the
construction-time copies and, when the activation is the parametric one,
restore its coefficient to `0.1`.  (Modelled from the spec: the membership
test `self.activation is utils.function[prelu-key]` reads the activation
table; the `prelu` entry is registered by repository modules that are not
under `src/`, per spec section 4.1.)  The running statistics are not
touched. -/
def BatchNormState.reset (st : BatchNormState) : BatchNormState :=
  { st with
      gamma := st.gamma_values
      beta := st.beta_values
      alpha := if st.activation = Activation.prelu then 1 / 10 else st.alpha }

/-- State of a `BatchRenormLayer`: the BatchNorm state plus the owned
correction bounds `r_max` and `d_max`. -/
structure BatchRenormState extends BatchNormState where
  r_max : ℚ
  d_max : ℚ

/-- `BatchRenormLayer.get_output`.  In both modes the output normalizes
with the renorm-adjusted batch statistics
`(batch_mean - d*batch_std/(r+1e-10), (batch_std/(r+1e-10))^2)`; the
training flag only gates the running-statistics update (lines 224-242 of
`normalization.py`). -/
def BatchRenormState.get_output (s : ℚ → ℚ) (st : BatchRenormState)
    (training : Bool) (m : ℕ) (x : ℕ → ℕ → ℚ) : (ℕ → ℕ → ℚ) × BatchRenormState :=
  let batch_mean := colMean m x
  let batch_std := fun j => s (colVar m x j + 1 / 10 ^ 10)
  let r := fun j =>
    clip (batch_std j / s (st.running_var j + 1 / 10 ^ 10)) (-st.r_max) st.r_max
  let d := fun j =>
    clip ((batch_mean j - st.running_mean j) / s (st.running_var j + 1 / 10 ^ 10))
      (-st.d_max) st.d_max
  let out := fun i j => st.activation.apply st.alpha
    (bn_test_out s x st.gamma st.beta
      (fun j => batch_mean j - d j * batch_std j / (r j + 1 / 10 ^ 10))
      (fun j => (batch_std j / (r j + 1 / 10 ^ 10)) ^ 2) st.epsilon i j)
  if training then
    (out,
     { st with
        running_mean := fun j =>
          st.running_mean j + st.running_average_factor * (batch_mean j - st.running_mean j)
        running_var := fun j =>
          st.running_var j * (1 - st.running_average_factor) +
            st.running_average_factor * ((m : ℚ) / ((m : ℚ) - 1)) * batch_std j ^ 2 })
  else (out, st)

/-- A 4D tensor indexed sample, channel, height, width. -/
abbrev T4 := ℕ → ℕ → ℕ → ℕ → ℚ

/-- Per-(sample, channel) mean over the spatial axes `(2, 3)`. -/
def instMean (h w : ℕ) (x : T4) (i j : ℕ) : ℚ :=
  (∑ p in Finset.range h, ∑ q in Finset.range w, x i j p q) / (h * w : ℕ)

/-- Per-(sample, channel) biased variance over the spatial axes `(2, 3)`. -/
def instVar (h w : ℕ) (x : T4) (i j : ℕ) : ℚ :=
  (∑ p in Finset.range h, ∑ q in Finset.range w, (x i j p q - instMean h w x i j) ^ 2) /
    (h * w : ℕ)

/-- Per-sample mean over all channels and spatial positions, the statistic
of the `groups == 1` branch (spatial batch normalization of the
channel-first shuffled tensor). -/
def layerMean (c h w : ℕ) (x : T4) (i : ℕ) : ℚ :=
  (∑ j in Finset.range c, ∑ p in Finset.range h, ∑ q in Finset.range w, x i j p q) /
    (c * h * w : ℕ)

/-- Per-sample biased variance over all channels and spatial positions. -/
def layerVar (c h w : ℕ) (x : T4) (i : ℕ) : ℚ :=
  (∑ j in Finset.range c, ∑ p in Finset.range h, ∑ q in Finset.range w,
      (x i j p q - layerMean c h w x i) ^ 2) / (c * h * w : ℕ)

/-- Per-(sample, group) mean of the reshaped `(n, groups, c/groups, h, w)`
tensor over its last three axes; `k = c/groups`, `g` is the group index. -/
def grpMean (k h w : ℕ) (x : T4) (i g : ℕ) : ℚ :=
  (∑ l in Finset.range k, ∑ p in Finset.range h, ∑ q in Finset.range w,
      x i (g * k + l) p q) / (k * h * w : ℕ)

/-- Per-(sample, group) biased variance of the reshaped tensor over its
last three axes. -/
def grpVar (k h w : ℕ) (x : T4) (i g : ℕ) : ℚ :=
  (∑ l in Finset.range k, ∑ p in Finset.range h, ∑ q in Finset.range w,
      (x i (g * k + l) p q - grpMean k h w x i g) ^ 2) / (k * h * w : ℕ)

/-- The `groups == 1` (layer-normalization) branch of
`GroupNormLayer.get_output`: spatial batch normalization of the
channel-first shuffled tensor with the layer epsilon, then per-channel
scale and shift. -/
def gn_layer_branch (s : ℚ → ℚ) (gamma beta : ℕ → ℚ) (c h w : ℕ) (eps : ℚ)
    (x : T4) : T4 :=
  fun i j p q =>
    gamma j * ((x i j p q - layerMean c h w x i) / s (layerVar c h w x i + eps)) + beta j

/-- The `groups == channel_count` (instance-normalization) branch of
`GroupNormLayer.get_output`: the call
`batch_normalization_train(input, ones, zeros, (2, 3))` passes no epsilon,
so the library default `1e-4` is used regardless of the layer epsilon. -/
def gn_instance_branch (s : ℚ → ℚ) (gamma beta : ℕ → ℚ) (h w : ℕ)
    (x : T4) : T4 :=
  fun i j p q =>
    gamma j * ((x i j p q - instMean h w x i j) / s (instVar h w x i j + 1 / 10 ^ 4)) + beta j

/-- The general grouped branch of `GroupNormLayer.get_output`: reshape to
`(n, groups, k, h, w)`, normalize by the per-(sample, group) statistics
with the layer epsilon, reshape back, then per-channel scale and shift.
Channel `j` of the flat tensor lands in group `j / k`. -/
def gn_general_branch (s : ℚ → ℚ) (gamma beta : ℕ → ℚ) (k h w : ℕ) (eps : ℚ)
    (x : T4) : T4 :=
  fun i j p q =>
    gamma j * ((x i j p q - grpMean k h w x i (j / k)) / s (grpVar k h w x i (j / k) + eps)) +
      beta j

/-- State of a `GroupNormLayer` (and of its `InstanceNormLayer` and
`LayerNormLayer` parameterizations): per-channel scale/shift and their
construction-time copies, the group count and the scalar configuration.
There are no running statistics. -/
structure GroupNormState where
  inputShape : List ℕ
  groups : ℕ
  epsilon : ℚ
  activation : Activation
  alpha : ℚ
  gamma : ℕ → ℚ
  beta : ℕ → ℚ
  gamma_values : ℕ → ℚ
  beta_values : ℕ → ℚ

/-- `GroupNormLayer.__init__`: the construction-time divisibility check
`input_shape[1] / groups == input_shape[1] // groups` (true division
against floor division) guards layer creation; on failure no layer
instance is produced.  A zero group count fails the division outright. -/
def groupNormInit (input_shape : List ℕ) (groups : ℕ) (eps : ℚ)
    (act : Activation) : Option GroupNormState :=
  let c := input_shape.getD 1 0
  if groups = 0 then none
  else if (c : ℚ) / (groups : ℚ) = ((c / groups : ℕ) : ℚ) then
    some
      { inputShape := input_shape
        groups := groups
        epsilon := eps
        activation := act
        alpha := 1 / 10
        gamma := fun _ => 1
        beta := fun _ => 0
        gamma_values := fun _ => 1
        beta_values := fun _ => 0 }
  else none

/-- `GroupNormLayer.get_output`: dispatch between the two fast paths and
the general grouped path on the stored group count, then apply the
activation.  `c` is the channel count `input_shape[1]`. -/
def GroupNormState.get_output (s : ℚ → ℚ) (st : GroupNormState) (h w : ℕ)
    (x : T4) : T4 :=
  let c := st.inputShape.getD 1 0
  fun i j p q => st.activation.apply st.alpha
    (if st.groups = 1 then gn_layer_branch s st.gamma st.beta c h w st.epsilon x i j p q
     else if st.groups = c then gn_instance_branch s st.gamma st.beta h w x i j p q
     else gn_general_branch s st.gamma st.beta (c / st.groups) h w st.epsilon x i j p q)

/-- `GroupNormLayer.output_shape`. -/
def GroupNormState.output_shape (st : GroupNormState) : List ℕ :=
  st.inputShape

/-- `GroupNormLayer.reset`: restore gamma and beta from the
construction-time copies (and the parametric coefficient, as for
BatchNorm). -/
def GroupNormState.reset (st : GroupNormState) : GroupNormState :=
  { st with
      gamma := st.gamma_values
      beta := st.beta_values
      alpha := if st.activation = Activation.prelu then 1 / 10 else st.alpha }

/-- `DecorrBatchNormLayer.get_output`, step 1: flatten the input to
`(channels, batch*spatial)` after the channel-first shuffle; column `t`
holds sample `t / (h*w)`, spatial position `(t % (h*w) / w, t % w)`. -/
def dbn_flat (h w : ℕ) (x : T4) : ℕ → ℕ → ℚ :=
  fun j t => x (t / (h * w)) j (t % (h * w) / w) (t % w)

/-- Row mean of the flattened input over its `mhw` columns. -/
def dbn_mu (mhw : ℕ) (X : ℕ → ℕ → ℚ) (j : ℕ) : ℚ :=
  (∑ t in Finset.range mhw, X j t) / (mhw : ℕ)

/-- `Sigma = 1/m * X_centered . X_centered^T`: the channel-channel second
moment of the centered flattened input, normalized by the batch size `m`
(as in the source, which divides by `m`, not by the column count). -/
def dbn_sigma (m mhw : ℕ) (X : ℕ → ℕ → ℚ) (j j' : ℕ) : ℚ :=
  (∑ t in Finset.range mhw, (X j t - dbn_mu mhw X j) * (X j' t - dbn_mu mhw X j')) / (m : ℕ)

/-- The transform the source builds from the eigendecomposition
`(W, D) = eigh(Sigma)`: `Z = D . diag(sqrt(W)) . D^T` (line 125 of
`normalization.py`), i.e. the matrix square root of `Sigma`, with the
square root of each eigenvalue on the diagonal. -/
def dbn_Z (s : ℚ → ℚ) (c : ℕ) (W : ℕ → ℚ) (D : ℕ → ℕ → ℚ) : ℕ → ℕ → ℚ :=
  fun a b => ∑ k in Finset.range c, D a k * s (W k) * D b k

/-- Multiply the transform into the flattened input: `X := Z . X`. -/
def dbn_apply (c : ℕ) (Z X : ℕ → ℕ → ℚ) : ℕ → ℕ → ℚ :=
  fun j t => ∑ k in Finset.range c, Z j k * X k t

/-- `DecorrBatchNormLayer.get_output`: flatten, center statistics, build
the transform from the eigendecomposition oracle `eigh` (the external
linear-algebra routine, passed as a parameter returning eigenvalues and
eigenvectors of a symmetric matrix), apply it, run per-activation batch
normalization on the transposed result, and reshape back to
`(m, c, h, w)`. -/
def dbn_get_output (s : ℚ → ℚ)
    (eigh : (ℕ → ℕ → ℚ) → (ℕ → ℚ) × (ℕ → ℕ → ℚ)) (st : BatchNormState)
    (training : Bool) (m c h w : ℕ) (x : T4) : T4 × BatchNormState :=
  let X := dbn_flat h w x
  let Sigma := dbn_sigma m (m * h * w) X
  let WD := eigh Sigma
  let Z := dbn_Z s c WD.1 WD.2
  let Xw := dbn_apply c Z X
  let Xt := fun t j => Xw j t
  let res := st.get_output s training (m * h * w) Xt
  (fun i j p q => res.1 (i * (h * w) + p * w + q) j, res.2)

/-- State of an `AdaptiveInstanceNorm2DLayer`: no owned scale/shift, just
the shape and epsilon. -/
structure AdaINState where
  inputShape : List ℕ
  epsilon : ℚ

/-- `AdaptiveInstanceNorm2DLayer.get_output` for a 4D style input: scale
is the per-channel standard deviation of the style map (regularized by
`1e-8`), bias its per-channel mean, and the content is instance-normalized
by `batch_normalization_train(input, scale, bias, (2, 3))` with the
library-default epsilon `1e-4`. -/
def AdaINState.get_output4 (s : ℚ → ℚ) (_st : AdaINState) (h w ph pw : ℕ)
    (x params : T4) : T4 :=
  fun i j p q =>
    (x i j p q - instMean h w x i j) / s (instVar h w x i j + 1 / 10 ^ 4) *
        s (instVar ph pw params i j + 1 / 10 ^ 8) + instMean ph pw params i j

/-- `AdaptiveInstanceNorm2DLayer.get_output` for a flat 2D style input:
the first `input_shape[1]` columns are the scale, the rest the bias. -/
def AdaINState.get_output2 (s : ℚ → ℚ) (st : AdaINState) (h w : ℕ)
    (x : T4) (params : ℕ → ℕ → ℚ) : T4 :=
  let c := st.inputShape.getD 1 0
  fun i j p q =>
    (x i j p q - instMean h w x i j) / s (instVar h w x i j + 1 / 10 ^ 4) * params i j +
      params i (c + j)

/-- `AdaptiveInstanceNorm2DLayer.output_shape`. -/
def AdaINState.output_shape (st : AdaINState) : List ℕ :=
  st.inputShape

/-- Modelled from the spec: `Conv2DLayer` lives in `neuralnet/layers.py`,
which is not under `src/`; per spec section 4.5 the conditional variant
derives scale and bias from the condition vector through small owned
1x1-kernel convolutions with their own weight and bias, which on a
`(n, noise_dim, 1, 1)` input is a linear map plus bias followed by the
sublayer activation. -/
def conv1x1 (weight : ℕ → ℕ → ℚ) (bias : ℕ → ℚ) (act : Activation) (al : ℚ)
    (nd : ℕ) (noise : ℕ → ℕ → ℚ) : ℕ → ℕ → ℚ :=
  fun i j => act.apply al ((∑ k in Finset.range nd, weight j k * noise i k) + bias j)

/-- State of a `ConditionalInstanceNorm2DLayer`: the adaptive state plus
the two owned convolutional sublayers for shift and scale. -/
structure CondINState extends AdaINState where
  noise_dim : ℕ
  act : Activation
  alpha : ℚ
  shift_weight : ℕ → ℕ → ℚ
  shift_bias : ℕ → ℚ
  scale_weight : ℕ → ℕ → ℚ
  scale_bias : ℕ → ℚ

/-- `ConditionalInstanceNorm2DLayer.get_output`: shift and scale come from
the sublayers applied to the noise vector; the content is normalized per
(sample, channel) over the spatial axes with the layer epsilon
(`(input - mean)/sqrt(var + epsilon)`), then scaled and shifted. -/
def CondINState.get_output (s : ℚ → ℚ) (st : CondINState) (h w : ℕ)
    (x : T4) (noise : ℕ → ℕ → ℚ) : T4 :=
  let shift := conv1x1 st.shift_weight st.shift_bias st.act st.alpha st.noise_dim noise
  let scale := conv1x1 st.scale_weight st.scale_bias st.act st.alpha st.noise_dim noise
  fun i j p q =>
    (x i j p q - instMean h w x i j) / s (instVar h w x i j + st.epsilon) * scale i j +
      shift i j

/-- `ConditionalInstanceNorm2DLayer.output_shape` (inherited). -/
def CondINState.output_shape (st : CondINState) : List ℕ :=
  st.inputShape

/-!
`DataManager.generate_in_background`: one producer thread pushes the
source minibatches, then a sentinel, into a queue bounded by `num_cached`;
the consumer pops until it dequeues the sentinel, which it does not yield.
The two threads interleave arbitrarily; the embedding is a transition
system whose four steps are the blocking queue operations, and the claims
are invariants of (and a completion property for) its reachable states.
Queue entries are `Option`: `some a` is a minibatch, `none` the sentinel.
-/

/-- Joint state of the producer, the bounded queue and the consumer. -/
structure PipeState (α : Type) where
  pending : List α
  sentinelSent : Bool
  queue : List (Option α)
  yielded : List α
  stopped : Bool

/-- Initial state: the producer still has the whole source sequence, the
queue is empty, nothing has been yielded. -/
def pipeInit {α : Type} (src : List α) : PipeState α :=
  { pending := src, sentinelSent := false, queue := [], yielded := [], stopped := false }

/-- One interleaving step of the background pipeline with queue capacity
`C`: `queue.put` blocks unless the queue holds fewer than `C` entries;
`queue.get` blocks on an empty queue; dequeuing the sentinel stops the
consumer without yielding. -/
inductive PipeStep (C : ℕ) {α : Type} : PipeState α → PipeState α → Prop
  | produce (st : PipeState α) (a : α) (rest : List α) :
      st.pending = a :: rest → st.queue.length < C →
      PipeStep C st { st with pending := rest, queue := st.queue ++ [some a] }
  | putSentinel (st : PipeState α) :
      st.pending = [] → st.sentinelSent = false → st.queue.length < C →
      PipeStep C st { st with sentinelSent := true, queue := st.queue ++ [none] }
  | getItem (st : PipeState α) (a : α) (rest : List (Option α)) :
      st.stopped = false → st.queue = some a :: rest →
      PipeStep C st { st with queue := rest, yielded := st.yielded ++ [a] }
  | getSentinel (st : PipeState α) (rest : List (Option α)) :
      st.stopped = false → st.queue = none :: rest →
      PipeStep C st { st with queue := rest, stopped := true }

/-- Reachability from the initial state of a run over `src`. -/
def PipeReaches (C : ℕ) {α : Type} (src : List α) (st : PipeState α) : Prop :=
  Relation.ReflTransGen (PipeStep C) (pipeInit src) st

/-- The minibatches currently buffered in the queue, in order, with the
sentinel filtered out. -/
def queueItems {α : Type} (q : List (Option α)) : List α :=
  q.filterMap id

/-- The invariant tying a pipeline state to its source sequence: the
yielded, buffered and unproduced items concatenate back to the source (so
order is preserved and nothing is lost or duplicated), the sentinel sits
at the back of the queue once sent, the queue respects the capacity, and a
stopped consumer has drained everything. -/
def PipeInv (C : ℕ) {α : Type} (src : List α) (st : PipeState α) : Prop :=
  st.yielded ++ queueItems st.queue ++ st.pending = src ∧
  st.queue.length ≤ C ∧
  (st.sentinelSent = false → (none ∉ st.queue ∧ st.stopped = false)) ∧
  (st.sentinelSent = true → st.pending = []) ∧
  (st.sentinelSent = true → st.stopped = false →
    st.queue = (queueItems st.queue).map some ++ [none]) ∧
  (st.stopped = true → st.queue = [])

/-- Termination measure for the pipeline: strictly decreases at every
step. -/
def pipeMeasure {α : Type} (st : PipeState α) : ℕ :=
  2 * st.pending.length + (if st.sentinelSent then 0 else 2) + st.queue.length +
    (if st.stopped then 0 else 1)

/-!
`DataManager.progress`: wraps a sequence, printing throttled progress and
a final summary.  The wall clock is an oracle `clock : ℕ → ℚ` giving the
value of the `k`-th call to `time.time()` (call 0 is the one before the
loop).  Printing is modelled as a list of report events; the function
returns the yielded items together with the event log.
-/

/-- One progress print: either a throttled intermediate report (item
number, total, percentage, and the ETA when at least one item is already
done) or the final summary with the elapsed time. -/
inductive ProgressEvent
  | report (n1 total : ℕ) (pct : ℚ) (eta : Option ℚ)
  | final (total : ℕ) (elapsed : ℚ)

/-- The loop of `DataManager.progress` over the remaining items; `n` items
have been consumed already, `tLast` is the time of the last print, and
call `n + 1` of the clock is the next `time.time()` read. -/
def progressRun {α : Type} (clock : ℕ → ℚ) (minDelay : ℚ) (total : ℕ)
    (tStart : ℚ) : List α → ℕ → ℚ → List α × List ProgressEvent
  | [], n, _ => ([], [ProgressEvent.final total (clock (n + 1) - tStart)])
  | a :: rest, n, tLast =>
      let tNow := clock (n + 1)
      if tNow - tLast > minDelay then
        let ev := ProgressEvent.report (n + 1) total ((n : ℚ) / (total : ℚ) * 100)
          (if 0 < n then
            some ((tNow - tStart) / (n : ℚ) * (total : ℚ) - (tNow - tStart))
           else none)
        let res := progressRun clock minDelay total tStart rest (n + 1) tNow
        (a :: res.1, ev :: res.2)
      else
        let res := progressRun clock minDelay total tStart rest (n + 1) tLast
        (a :: res.1, res.2)

/-- `DataManager.progress`: resolve `total or len(items)` (a falsy `total`
argument falls back to the length of the sequence), then run the loop
with `t_start = time.time()` and `t_last = 0`. -/
def progress {α : Type} (clock : ℕ → ℚ) (items : List α)
    (total? : Option ℕ) (minDelay : ℚ) : List α × List ProgressEvent :=
  let total := match total? with
    | none => items.length
    | some 0 => items.length
    | some t => t
  progressRun clock minDelay total (clock 0) items 0 0

/-!
Concrete fixtures used by the counterexample and failing-input theorems.
-/

/-- A single-channel batch of two reduction positions holding `0` and `2`:
batch mean `1`, biased batch variance `1`. -/
def xPair : ℕ → ℕ → ℚ := fun i _ => if i = 0 then 0 else 2

/-- A concrete `BatchNormLayer` instance: shape `(2, 1)`, epsilon `1e-4`,
running average factor `0.1`, linear activation. -/
def bnC1 : BatchNormState := batchNormInit [2, 1] (1 / 10 ^ 4) (1 / 10) Activation.linear

/-- A concrete `BatchRenormLayer` instance in the state reached after some
training: shape `(2, 1)`, epsilon `1e-4`, factor `0.1`, linear activation,
`r_max = 1 - 1e-10`, `d_max = 0`, running mean `0` and running variance
`1 - 1e-10` (values chosen so that every square root the forward pass
takes is exact for `ratSqrt`). -/
def brnC3 : BatchRenormState :=
  { toBatchNormState :=
      { batchNormInit [2, 1] (1 / 10 ^ 4) (1 / 10) Activation.linear with
          running_var := fun _ => 1 - 1 / 10 ^ 10 }
    r_max := 1 - 1 / 10 ^ 10
    d_max := 0 }

/-- A concrete `(1, 2, 1, 2)` input for the GroupNorm paths: channel 0
holds `(0, 2)` across the two width positions, channel 1 is zero. -/
def xGN : T4 := fun i j p q => if i = 0 ∧ j = 0 ∧ p = 0 ∧ q = 1 then 2 else 0

/-- A concrete `GroupNormLayer` instance with two channels, two groups
(the instance-normalization fast path) and the non-default epsilon `3`. -/
def gnC4 : GroupNormState :=
  { inputShape := [1, 2, 1, 2]
    groups := 2
    epsilon := 3
    activation := Activation.linear
    alpha := 1 / 10
    gamma := fun _ => 1
    beta := fun _ => 0
    gamma_values := fun _ => 1
    beta_values := fun _ => 0 }

/-- A concrete single-channel `(2, 1, 1, 1)` input for the decorrelated
path: the two samples hold `0` and `4`, giving channel covariance `4`. -/
def dbnX : T4 := fun i _ _ _ => if i = 0 then 0 else 4

/-- The eigendecomposition oracle for `1 x 1` symmetric matrices, as the
external routine returns it: the sole eigenvalue is the sole entry, the
eigenvector matrix is `[[1]]`. -/
def eigh1 : (ℕ → ℕ → ℚ) → (ℕ → ℚ) × (ℕ → ℕ → ℚ) :=
  fun Sg => (fun _ => Sg 0 0, fun _ _ => 1)

/-!
Helper lemmas: evaluating `ratSqrt` on concrete rationals.
-/

theorem ratSqrt_natCast_div (a b : ℕ) (hb : 0 < b) (h : Nat.Coprime a b) :
    ratSqrt ((a : ℚ) / (b : ℚ)) = (Nat.sqrt a : ℚ) / (Nat.sqrt b : ℚ) := by
  have hb' : (0 : ℤ) < (b : ℤ) := by exact_mod_cast hb
  have hco : Nat.Coprime (Int.natAbs (a : ℤ)) (Int.natAbs (b : ℤ)) := by simpa using h
  have hnum : ((a : ℚ) / (b : ℚ)).num = (a : ℤ) := by
    have h1 := Rat.num_div_eq_of_coprime hb' hco
    push_cast at h1
    exact h1
  have hden : (((a : ℚ) / (b : ℚ)).den : ℤ) = (b : ℤ) := by
    have h1 := Rat.den_div_eq_of_coprime hb' hco
    push_cast at h1
    exact h1
  have hden' : ((a : ℚ) / (b : ℚ)).den = b := by exact_mod_cast hden
  unfold ratSqrt
  rw [hnum, hden']
  simp

theorem ratSqrt_natCast (a : ℕ) : ratSqrt (a : ℚ) = (Nat.sqrt a : ℚ) := by
  have h := ratSqrt_natCast_div a 1 (by norm_num) (Nat.coprime_one_right a)
  simpa using h

/-- C2: a test-mode forward call of a BatchNorm layer leaves the layer
state (in particular the running statistics) unchanged, so a second
test-mode call on the same input produces the identical output. -/
theorem bn_test_frame_effect (s : ℚ → ℚ) (st : BatchNormState) (m : ℕ)
    (x : ℕ → ℕ → ℚ) :
    (st.get_output s false m x).2 = st ∧
    ((st.get_output s false m x).2.get_output s false m x).1 =
      (st.get_output s false m x).1 :=
  ⟨rfl, rfl⟩

/-- Yield component of the progress-reporting loop: the wrapped items,
unaltered and in order, whatever the clock does. -/
theorem progressRun_yields {α : Type} (clock : ℕ → ℚ) (minDelay : ℚ) (total : ℕ)
    (tStart : ℚ) :
    ∀ (l : List α) (n : ℕ) (tLast : ℚ),
      (progressRun clock minDelay total tStart l n tLast).1 = l
  | [], _, _ => rfl
  | a :: rest, n, tLast => by
      simp only [progressRun]
      split_ifs <;>
        simp [progressRun_yields clock minDelay total tStart rest]

/-- C9: the progress-reporting wrapper yields exactly the items of the
wrapped sequence, in order and with unaltered values, for every clock
behavior, `total` argument and `min_delay`; reporting only contributes to
the event log, never to the yielded values. -/
theorem progress_pure_passthrough {α : Type} (clock : ℕ → ℚ) (items : List α)
    (total? : Option ℕ) (minDelay : ℚ) :
    (progress clock items total? minDelay).1 = items :=
  progressRun_yields clock minDelay _ _ items 0 0

/-- C10: every normalization-layer variant reports `output_shape` equal to
the construction-time `input_shape`, and no operation (forward in either
mode, reset) changes the stored input shape. -/
theorem norm_layers_output_shape_invariant :
    (∀ st : BatchNormState, st.output_shape = st.inputShape) ∧
    (∀ (s : ℚ → ℚ) (st : BatchNormState) (tr : Bool) (m : ℕ) (x : ℕ → ℕ → ℚ),
      (st.get_output s tr m x).2.inputShape = st.inputShape) ∧
    (∀ st : BatchNormState, st.reset.inputShape = st.inputShape) ∧
    (∀ (s : ℚ → ℚ) (st : BatchRenormState) (tr : Bool) (m : ℕ) (x : ℕ → ℕ → ℚ),
      (st.get_output s tr m x).2.inputShape = st.inputShape) ∧
    (∀ (s : ℚ → ℚ) (eigh : (ℕ → ℕ → ℚ) → (ℕ → ℚ) × (ℕ → ℕ → ℚ))
        (st : BatchNormState) (tr : Bool) (m c h w : ℕ) (x : T4),
      (dbn_get_output s eigh st tr m c h w x).2.inputShape = st.inputShape) ∧
    (∀ st : GroupNormState, st.output_shape = st.inputShape) ∧
    (∀ st : GroupNormState, st.reset.inputShape = st.inputShape) ∧
    (∀ st : AdaINState, st.output_shape = st.inputShape) ∧
    (∀ st : CondINState, st.output_shape = st.inputShape) := by
  refine ⟨fun _ => rfl, fun s st tr m x => ?_, fun _ => rfl,
    fun s st tr m x => ?_, fun s eigh st tr m c h w x => ?_,
    fun _ => rfl, fun _ => rfl, fun _ => rfl, fun _ => rfl⟩
  · cases tr <;> rfl
  · cases tr <;> rfl
  · cases tr <;> rfl

/-- C6: GroupNorm construction succeeds exactly when the group count
divides the channel count `input_shape[1]`; otherwise the divisibility
check fails before a layer instance exists. -/
theorem gn_init_divisibility (shape : List ℕ) (g : ℕ) (eps : ℚ)
    (act : Activation) (hg : 0 < g) :
    (groupNormInit shape g eps act).isSome ↔ g ∣ shape.getD 1 0 := by
  unfold groupNormInit
  rw [if_neg hg.ne']
  by_cases hdvd : ((shape.getD 1 0 : ℚ) / (g : ℚ) = ((shape.getD 1 0 / g : ℕ) : ℚ))
  · rw [if_pos hdvd]
    simp only [Option.isSome_some, true_iff]
    have hgq : (g : ℚ) ≠ 0 := Nat.cast_ne_zero.mpr hg.ne'
    rw [div_eq_iff hgq] at hdvd
    have hc : shape.getD 1 0 = shape.getD 1 0 / g * g := by exact_mod_cast hdvd
    exact ⟨shape.getD 1 0 / g, by rw [Nat.mul_comm]; exact hc⟩
  · rw [if_neg hdvd]
    simp only [Option.isSome_none, Bool.false_eq_true, false_iff]
    intro hd
    apply hdvd
    obtain ⟨k, hk⟩ := hd
    rw [hk, Nat.mul_div_cancel_left k hg]
    have hgq : (g : ℚ) ≠ 0 := Nat.cast_ne_zero.mpr hg.ne'
    push_cast
    field_simp

/-- Witness instantiating `gn_init_divisibility`: three groups on six
channels. -/
theorem gn_init_divisibility_witness :
    0 < 3 ∧
      ((groupNormInit [0, 6] 3 (1 / 10 ^ 4) Activation.relu).isSome ↔ 3 ∣ 6) :=
  ⟨by norm_num, gn_init_divisibility [0, 6] 3 (1 / 10 ^ 4) Activation.relu (by norm_num)⟩

/-- C8: `reset` on a BatchNorm-family layer restores the scale to its
construction-time ones, the shift to its construction-time zeros, and the
parametric-activation coefficient to `0.1`, while the running mean and
running variance are left untouched. -/
theorem bn_reset_preserves_running_stats (st : BatchNormState)
    (h1 : st.gamma_values = fun _ => 1) (h2 : st.beta_values = fun _ => 0) :
    st.reset.gamma = (fun _ => (1 : ℚ)) ∧
    st.reset.beta = (fun _ => (0 : ℚ)) ∧
    (st.activation = Activation.prelu → st.reset.alpha = 1 / 10) ∧
    st.reset.running_mean = st.running_mean ∧
    st.reset.running_var = st.running_var := by
  refine ⟨?_, ?_, ?_, rfl, rfl⟩
  · rw [← h1]; rfl
  · rw [← h2]; rfl
  · intro hp
    simp [BatchNormState.reset, hp]

/-- Witness instantiating `bn_reset_preserves_running_stats` at a freshly
constructed layer with the parametric activation. -/
theorem bn_reset_preserves_running_stats_witness :
    ((batchNormInit [4, 3, 8, 8] (1 / 10 ^ 4) (1 / 10) Activation.prelu).reset.gamma =
        (fun _ => (1 : ℚ))) ∧
    ((batchNormInit [4, 3, 8, 8] (1 / 10 ^ 4) (1 / 10) Activation.prelu).reset.beta =
        (fun _ => (0 : ℚ))) ∧
    ((batchNormInit [4, 3, 8, 8] (1 / 10 ^ 4) (1 / 10) Activation.prelu).activation =
        Activation.prelu →
      (batchNormInit [4, 3, 8, 8] (1 / 10 ^ 4) (1 / 10) Activation.prelu).reset.alpha =
        1 / 10) ∧
    ((batchNormInit [4, 3, 8, 8] (1 / 10 ^ 4) (1 / 10) Activation.prelu).reset.running_mean =
        (batchNormInit [4, 3, 8, 8] (1 / 10 ^ 4) (1 / 10) Activation.prelu).running_mean) ∧
    ((batchNormInit [4, 3, 8, 8] (1 / 10 ^ 4) (1 / 10) Activation.prelu).reset.running_var =
        (batchNormInit [4, 3, 8, 8] (1 / 10 ^ 4) (1 / 10) Activation.prelu).running_var) :=
  bn_reset_preserves_running_stats _ rfl rfl

/-- C1 (amended): one training-mode BatchNorm forward call moves the
running mean by exactly `factor * (batch_mean - running_mean)`, updates
the running variance to
`running_var * (1 - factor) + factor * (m/(m-1)) * batch_var`
(the library applies the unbiased-variance correction, `m` being the
number of elements each statistic is averaged over), and returns an output
computed from the biased batch statistics — independent of the running
statistics, old or updated. -/
theorem bn_train_update_and_output_amended (s : ℚ → ℚ) (st : BatchNormState)
    (m : ℕ) (x : ℕ → ℕ → ℚ) (_hm : 2 ≤ m) :
    (∀ j, (st.forward_train s m x).2.running_mean j - st.running_mean j =
      st.running_average_factor * (colMean m x j - st.running_mean j)) ∧
    (∀ j, (st.forward_train s m x).2.running_var j =
      st.running_var j * (1 - st.running_average_factor) +
        st.running_average_factor * ((m : ℚ) / ((m : ℚ) - 1)) * colVar m x j) ∧
    (∀ i j, (st.forward_train s m x).1 i j = st.activation.apply st.alpha
      ((x i j - colMean m x j) / s (colVar m x j + st.epsilon) * st.gamma j +
        st.beta j)) ∧
    (∀ rm rv : ℕ → ℚ,
      (({ st with running_mean := rm, running_var := rv } :
          BatchNormState).forward_train s m x).1 = (st.forward_train s m x).1) := by
  refine ⟨fun j => ?_, fun j => ?_, fun i j => ?_, fun rm rv => ?_⟩
  · simp only [BatchNormState.forward_train, bn_new_running_mean]
    ring
  · simp only [BatchNormState.forward_train, bn_new_running_var]
    ring
  · rfl
  · rfl

/-- Witness instantiating `bn_train_update_and_output_amended` at the
concrete layer `bnC1` on the two-element batch `xPair`. -/
theorem bn_train_update_and_output_amended_witness :
    2 ≤ 2 ∧
    ((∀ j, (bnC1.forward_train ratSqrt 2 xPair).2.running_mean j -
        bnC1.running_mean j =
      bnC1.running_average_factor * (colMean 2 xPair j - bnC1.running_mean j)) ∧
    (∀ j, (bnC1.forward_train ratSqrt 2 xPair).2.running_var j =
      bnC1.running_var j * (1 - bnC1.running_average_factor) +
        bnC1.running_average_factor * ((2 : ℚ) / ((2 : ℚ) - 1)) * colVar 2 xPair j) ∧
    (∀ i j, (bnC1.forward_train ratSqrt 2 xPair).1 i j =
      bnC1.activation.apply bnC1.alpha
        ((xPair i j - colMean 2 xPair j) / ratSqrt (colVar 2 xPair j + bnC1.epsilon) *
            bnC1.gamma j + bnC1.beta j)) ∧
    (∀ rm rv : ℕ → ℚ,
      (({ bnC1 with running_mean := rm, running_var := rv } :
          BatchNormState).forward_train ratSqrt 2 xPair).1 =
        (bnC1.forward_train ratSqrt 2 xPair).1)) :=
  ⟨by norm_num,
   by exact_mod_cast bn_train_update_and_output_amended ratSqrt bnC1 2 xPair (by norm_num)⟩

/-- C1 counterexample: at the layer `bnC1` (factor `0.1`, running variance
`0`) on the batch `(0, 2)` (biased batch variance `1`), the code updates
the running variance to `0.2` — `factor * (m/(m-1)) * batch_var` with
`m = 2` — not to the `0.1` the plain exponential-moving-average reading of
the claim demands. -/
theorem bn_running_var_ema_counterexample :
    ¬ ((bnC1.forward_train ratSqrt 2 xPair).2.running_var 0 =
        bnC1.running_var 0 + 1 / 10 * (colVar 2 xPair 0 - bnC1.running_var 0)) := by
  have hvar : colVar 2 xPair 0 = 1 := by
    simp [colVar, colMean, xPair, Finset.sum_range_succ]
    norm_num
  simp only [BatchNormState.forward_train, bn_new_running_var, bnC1, batchNormInit, hvar]
  norm_num

/-- The `groups == 1` fast path of GroupNorm agrees exactly with the
general grouped path run at one group (where `k = c`), for every square
root oracle, epsilon, scale, shift and valid channel index. -/
theorem gn_layer_branch_matches_general (s : ℚ → ℚ) (gamma beta : ℕ → ℚ)
    (c h w : ℕ) (eps : ℚ) (x : T4) (i j p q : ℕ) (hj : j < c) :
    gn_layer_branch s gamma beta c h w eps x i j p q =
      gn_general_branch s gamma beta c h w eps x i j p q := by
  have hmean : grpMean c h w x i 0 = layerMean c h w x i := by
    simp [grpMean, layerMean]
  have hvar : grpVar c h w x i 0 = layerVar c h w x i := by
    simp [grpVar, layerVar, hmean]
  unfold gn_layer_branch gn_general_branch
  rw [Nat.div_eq_of_lt hj, hmean, hvar]

/-- The `groups == channel_count` fast path of GroupNorm agrees exactly
with the general grouped path run at `k = 1` — but only with epsilon fixed
at the library default `1e-4` the fast path hard-codes. -/
theorem gn_instance_branch_matches_general (s : ℚ → ℚ) (gamma beta : ℕ → ℚ)
    (h w : ℕ) (x : T4) (i j p q : ℕ) :
    gn_instance_branch s gamma beta h w x i j p q =
      gn_general_branch s gamma beta 1 h w (1 / 10 ^ 4) x i j p q := by
  have hmean : grpMean 1 h w x i j = instMean h w x i j := by
    simp [grpMean, instMean]
  have hvar : grpVar 1 h w x i j = instVar h w x i j := by
    simp [grpVar, instVar, hmean]
  unfold gn_instance_branch gn_general_branch
  rw [Nat.div_one, hmean, hvar]

/-- C4 failing input: the GroupNorm layer `gnC4` (two channels, two
groups, epsilon `3`) dispatches to the instance fast path, which
normalizes with the hard-coded library epsilon `1e-4` and outputs `-1` at
position `(0,0,0,0)` of `xGN`; the general grouped path run with the same
groups, epsilon, scale and shift outputs `-1/2` there. -/
theorem gn_instance_path_epsilon_failing_input :
    gnC4.get_output ratSqrt 1 2 xGN 0 0 0 0 = -1 ∧
    gn_general_branch ratSqrt gnC4.gamma gnC4.beta 1 1 2 gnC4.epsilon xGN 0 0 0 0 =
      -(1 / 2) := by
  have hm : instMean 1 2 xGN 0 0 = 1 := by
    norm_num [instMean, xGN, Finset.sum_range_succ]
  have hv : instVar 1 2 xGN 0 0 = 1 := by
    norm_num [instVar, xGN, hm, Finset.sum_range_succ]
  have hgm : grpMean 1 1 2 xGN 0 0 = 1 := by
    norm_num [grpMean, xGN, Finset.sum_range_succ]
  have hgv : grpVar 1 1 2 xGN 0 0 = 1 := by
    norm_num [grpVar, xGN, hgm, Finset.sum_range_succ]
  have hs1 : ratSqrt (1 + 1 / 10000) = 1 := by
    rw [show (1 + 1 / 10000 : ℚ) = ((10001 : ℕ) : ℚ) / ((10000 : ℕ) : ℚ) by norm_num,
      ratSqrt_natCast_div 10001 10000 (by norm_num) (by norm_num)]
    norm_num
  have hs4 : ratSqrt ((1 : ℚ) + 3) = 2 := by
    rw [show ((1 : ℚ) + 3) = ((4 : ℕ) : ℚ) by norm_num, ratSqrt_natCast]
    norm_num
  constructor
  · simp only [GroupNormState.get_output, gnC4, gn_instance_branch]
    norm_num
    rw [hm, hv, hs1]
    simp [xGN, Activation.apply]
  · simp only [gn_general_branch, gnC4]
    norm_num
    rw [hgm, hgv, hs4]
    simp [xGN]
    norm_num

/-- C3 failing input: a test-mode forward call of the BatchRenorm layer
`brnC3` on the batch `(0, 2)` outputs `1` at row 1 — normalizing with the
renorm-adjusted statistics of the current batch — whereas normalizing with
the frozen running statistics, as `batch_normalization_test` does for
BatchNorm and as the claim states, gives `50000/25001` (close to `2`,
since the running mean is `0` and the running variance close to `1`). -/
theorem brn_test_uses_batch_stats_failing_input :
    (brnC3.get_output ratSqrt false 2 xPair).1 1 0 = 1 ∧
    bn_test_out ratSqrt xPair brnC3.gamma brnC3.beta brnC3.running_mean
      brnC3.running_var brnC3.epsilon 1 0 = 50000 / 25001 ∧
    (brnC3.get_output ratSqrt false 2 xPair).1 1 0 ≠
      bn_test_out ratSqrt xPair brnC3.gamma brnC3.beta brnC3.running_mean
        brnC3.running_var brnC3.epsilon 1 0 := by
  have hA : ratSqrt ((10000000001 : ℚ) / 10000000000) = 1 := by
    rw [show ((10000000001 : ℚ) / 10000000000) =
        ((10000000001 : ℕ) : ℚ) / ((10000000000 : ℕ) : ℚ) by norm_num,
      ratSqrt_natCast_div 10000000001 10000000000 (by norm_num) (by norm_num)]
    norm_num
  have hB : ratSqrt (1 : ℚ) = 1 := by
    rw [show (1 : ℚ) = ((1 : ℕ) : ℚ) by norm_num, ratSqrt_natCast]
    norm_num
  have hC : ratSqrt ((10001 : ℚ) / 10000) = 1 := by
    rw [show ((10001 : ℚ) / 10000) = ((10001 : ℕ) : ℚ) / ((10000 : ℕ) : ℚ) by norm_num,
      ratSqrt_natCast_div 10001 10000 (by norm_num) (by norm_num)]
    norm_num
  have hD : ratSqrt ((10000999999 : ℚ) / 10000000000) = 25001 / 25000 := by
    rw [show ((10000999999 : ℚ) / 10000000000) =
        ((10000999999 : ℕ) : ℚ) / ((10000000000 : ℕ) : ℚ) by norm_num,
      ratSqrt_natCast_div 10000999999 10000000000 (by norm_num) (by norm_num)]
    norm_num
  have hcode : (brnC3.get_output ratSqrt false 2 xPair).1 1 0 = 1 := by
    norm_num [BatchRenormState.get_output, bn_test_out, clip, Activation.apply,
      brnC3, batchNormInit, colMean, colVar, xPair, Finset.sum_range_succ,
      min_def, max_def, hA, hB, hC]
  have hspec : bn_test_out ratSqrt xPair brnC3.gamma brnC3.beta brnC3.running_mean
      brnC3.running_var brnC3.epsilon 1 0 = 50000 / 25001 := by
    norm_num [bn_test_out, brnC3, batchNormInit, xPair, hD]
  refine ⟨hcode, hspec, ?_⟩
  rw [hcode, hspec]
  norm_num

/-- C5 failing input: on the single-channel batch `dbnX` (values `0` and
`4`, channel covariance `4`) the transform the code builds from the
eigendecomposition is `2` — the matrix square root of the covariance,
since `2 * 2 = 4` — not the inverse matrix square root the claim
describes: it fails the whitening property (`2 * 4 * 2 = 16`, not `1`),
which `1/2` satisfies, and it maps the flattened input entry `4` to `8`
(amplifying instead of whitening). -/
theorem dbn_sqrt_not_inverse_sqrt_failing_input :
    dbn_sigma 2 2 (dbn_flat 1 1 dbnX) 0 0 = 4 ∧
    dbn_Z ratSqrt 1 (eigh1 (dbn_sigma 2 2 (dbn_flat 1 1 dbnX))).1
      (eigh1 (dbn_sigma 2 2 (dbn_flat 1 1 dbnX))).2 0 0 = 2 ∧
    dbn_Z ratSqrt 1 (eigh1 (dbn_sigma 2 2 (dbn_flat 1 1 dbnX))).1
        (eigh1 (dbn_sigma 2 2 (dbn_flat 1 1 dbnX))).2 0 0 *
      dbn_sigma 2 2 (dbn_flat 1 1 dbnX) 0 0 *
      dbn_Z ratSqrt 1 (eigh1 (dbn_sigma 2 2 (dbn_flat 1 1 dbnX))).1
        (eigh1 (dbn_sigma 2 2 (dbn_flat 1 1 dbnX))).2 0 0 ≠ 1 ∧
    (1 / 2 : ℚ) * dbn_sigma 2 2 (dbn_flat 1 1 dbnX) 0 0 * (1 / 2) = 1 ∧
    dbn_apply 1
      (dbn_Z ratSqrt 1 (eigh1 (dbn_sigma 2 2 (dbn_flat 1 1 dbnX))).1
        (eigh1 (dbn_sigma 2 2 (dbn_flat 1 1 dbnX))).2)
      (dbn_flat 1 1 dbnX) 0 1 = 8 := by
  have hsig : dbn_sigma 2 2 (dbn_flat 1 1 dbnX) 0 0 = 4 := by
    norm_num [dbn_sigma, dbn_mu, dbn_flat, dbnX, Finset.sum_range_succ]
  have hr4 : ratSqrt (4 : ℚ) = 2 := by
    rw [show (4 : ℚ) = ((4 : ℕ) : ℚ) by norm_num, ratSqrt_natCast]
    norm_num
  have hZ : dbn_Z ratSqrt 1 (eigh1 (dbn_sigma 2 2 (dbn_flat 1 1 dbnX))).1
      (eigh1 (dbn_sigma 2 2 (dbn_flat 1 1 dbnX))).2 0 0 = 2 := by
    norm_num [dbn_Z, eigh1, Finset.sum_range_one, hsig, hr4]
  have happ : dbn_apply 1
      (dbn_Z ratSqrt 1 (eigh1 (dbn_sigma 2 2 (dbn_flat 1 1 dbnX))).1
        (eigh1 (dbn_sigma 2 2 (dbn_flat 1 1 dbnX))).2)
      (dbn_flat 1 1 dbnX) 0 1 = 8 := by
    rw [dbn_apply, Finset.sum_range_one, hZ]
    norm_num [dbn_flat, dbnX]
  refine ⟨hsig, hZ, ?_, ?_, happ⟩
  · rw [hsig, hZ]
    norm_num
  · rw [hsig]
    norm_num

/-!
The background-pipeline claim: invariants of the bounded-queue transition
system, preservation, progress, and the combined statement.
-/

/-- A queue without the sentinel is exactly its item list mapped back. -/
theorem queueItems_sentinel_free {α : Type} (q : List (Option α))
    (h : none ∉ q) : (queueItems q).map some = q := by
  induction q with
  | nil => rfl
  | cons a rest ih =>
      cases a with
      | none => exact absurd (List.mem_cons_self _ _) h
      | some b =>
          have h' : none ∉ rest := fun hm => h (List.mem_cons_of_mem _ hm)
          simpa [queueItems, List.filterMap_cons] using ih h'

/-- The pipeline invariant holds initially. -/
theorem pipeInv_init {α : Type} (C : ℕ) (src : List α) :
    PipeInv C src (pipeInit src) := by
  refine ⟨by simp [pipeInit, queueItems], by simp [pipeInit], ?_, ?_, ?_, ?_⟩ <;>
    simp [pipeInit]

/-- The pipeline invariant is preserved by every interleaving step. -/
theorem pipeInv_step {α : Type} {C : ℕ} {src : List α} {st st' : PipeState α}
    (hinv : PipeInv C src st) (hstep : PipeStep C st st') :
    PipeInv C src st' := by
  obtain ⟨horder, hlen, hns, hpend, hlay, hstop⟩ := hinv
  cases hstep with
  | produce a rest hp hl =>
      refine ⟨?_, ?_, ?_, ?_, ?_, ?_⟩
      · show st.yielded ++ queueItems (st.queue ++ [some a]) ++ rest = src
        rw [hp] at horder
        simp only [queueItems, List.filterMap_append, List.filterMap_cons,
          List.filterMap_nil, id] at horder ⊢
        simpa using horder
      · show (st.queue ++ [some a]).length ≤ C
        simpa using hl
      · intro hs
        obtain ⟨hnq, hstp⟩ := hns hs
        refine ⟨?_, hstp⟩
        show none ∉ st.queue ++ [some a]
        simp only [List.mem_append]
        rintro (hmem | hmem)
        · exact hnq hmem
        · simp at hmem
      · intro hs
        rw [hpend hs] at hp
        simp at hp
      · intro hs
        rw [hpend hs] at hp
        simp at hp
      · intro hstp2
        exfalso
        cases hsent : st.sentinelSent with
        | true =>
            rw [hpend hsent] at hp
            simp at hp
        | false =>
            have hx := (hns hsent).2
            have hstp2' : st.stopped = true := hstp2
            rw [hx] at hstp2'
            simp at hstp2'
  | putSentinel hp hsent hl =>
      have hnq : none ∉ st.queue := (hns hsent).1
      have hnstop : st.stopped = false := (hns hsent).2
      refine ⟨?_, ?_, ?_, ?_, ?_, ?_⟩
      · show st.yielded ++ queueItems (st.queue ++ [none]) ++ st.pending = src
        simp only [queueItems, List.filterMap_append, List.filterMap_cons,
          List.filterMap_nil, id, List.append_nil] at horder ⊢
        simpa using horder
      · show (st.queue ++ [none]).length ≤ C
        simpa using hl
      · intro hs
        simp at hs
      · intro _
        exact hp
      · intro _ _
        show st.queue ++ [none] = (queueItems (st.queue ++ [none])).map some ++ [none]
        have : queueItems (st.queue ++ [none]) = queueItems st.queue := by
          simp [queueItems, List.filterMap_append]
        rw [this, queueItems_sentinel_free st.queue hnq]
      · intro hstp2
        exfalso
        have hstp2' : st.stopped = true := hstp2
        rw [hnstop] at hstp2'
        simp at hstp2'
  | getItem a rest hstp0 hq =>
      refine ⟨?_, ?_, ?_, ?_, ?_, ?_⟩
      · show (st.yielded ++ [a]) ++ queueItems rest ++ st.pending = src
        rw [hq] at horder
        simp only [queueItems, List.filterMap_cons, id] at horder ⊢
        simpa using horder
      · show rest.length ≤ C
        rw [hq] at hlen
        simp at hlen
        omega
      · intro hs
        obtain ⟨hnq, hstp⟩ := hns hs
        rw [hq] at hnq
        exact ⟨fun hm => hnq (List.mem_cons_of_mem _ hm), hstp⟩
      · intro hs
        exact hpend hs
      · intro hs hnstop2
        have hnstop : st.stopped = false := hnstop2
        have hkey := hlay hs hnstop
        rw [hq] at hkey
        show rest = (queueItems rest).map some ++ [none]
        simp only [queueItems, List.filterMap_cons, id] at hkey ⊢
        simpa using hkey
      · intro hstp2
        exfalso
        have hstp2' : st.stopped = true := hstp2
        rw [hstp0] at hstp2'
        simp at hstp2'
  | getSentinel rest hstp0 hq =>
      have hsent : st.sentinelSent = true := by
        cases hs : st.sentinelSent with
        | false =>
            exfalso
            have hnq := (hns hs).1
            rw [hq] at hnq
            simp at hnq
        | true => rfl
      have hkey := hlay hsent hstp0
      rw [hq] at hkey
      simp only [queueItems, List.filterMap_cons, id] at hkey
      have hrest : rest = [] := by
        cases hqi : (rest.filterMap id) with
        | nil =>
            rw [hqi] at hkey
            simpa using hkey
        | cons b tl =>
            rw [hqi] at hkey
            simp at hkey
      refine ⟨?_, ?_, ?_, ?_, ?_, ?_⟩
      · show st.yielded ++ queueItems rest ++ st.pending = src
        rw [hq] at horder
        simp only [queueItems, List.filterMap_cons, id] at horder ⊢
        simpa using horder
      · show rest.length ≤ C
        rw [hq] at hlen
        simp at hlen
        omega
      · intro hs
        rw [hs] at hsent
        simp at hsent
      · intro _
        exact hpend hsent
      · intro _ hstp2
        exfalso
        have : (true : Bool) = false := hstp2
        simp at this
      · intro _
        show rest = []
        exact hrest

/-- The invariant holds in every reachable state. -/
theorem pipeInv_reaches {α : Type} {C : ℕ} {src : List α} {st : PipeState α}
    (h : PipeReaches C src st) : PipeInv C src st := by
  induction h with
  | refl => exact pipeInv_init C src
  | tail _ hstep ih => exact pipeInv_step ih hstep

/-- The invariant is carried along any further run. -/
theorem pipeInv_rtg {α : Type} {C : ℕ} {src : List α} {st st' : PipeState α}
    (hinv : PipeInv C src st)
    (h : Relation.ReflTransGen (PipeStep C) st st') : PipeInv C src st' := by
  induction h with
  | refl => exact hinv
  | tail _ hstep ih => exact pipeInv_step ih hstep

/-- Every step strictly decreases the termination measure. -/
theorem pipeStep_measure {α : Type} {C : ℕ} {st st' : PipeState α}
    (h : PipeStep C st st') : pipeMeasure st' < pipeMeasure st := by
  cases h with
  | produce a rest hp hl =>
      simp [pipeMeasure, hp]
      omega
  | putSentinel hp hsent hl =>
      simp [pipeMeasure, hp, hsent]
      omega
  | getItem a rest hstp0 hq =>
      simp [pipeMeasure, hq]
  | getSentinel rest hstp0 hq =>
      simp [pipeMeasure, hq, hstp0]
      omega

/-- From any reachable unstopped state some step is enabled (no deadlock),
provided the queue capacity is at least one. -/
theorem pipe_step_enabled {α : Type} {C : ℕ} {src : List α}
    (hC : 1 ≤ C) {st : PipeState α} (hinv : PipeInv C src st)
    (hnstop : st.stopped = false) : ∃ st', PipeStep C st st' := by
  obtain ⟨horder, hlen, hns, hpend, hlay, hstop⟩ := hinv
  cases hq : st.queue with
  | cons q0 qrest =>
      cases q0 with
      | some a => exact ⟨_, PipeStep.getItem st a qrest hnstop hq⟩
      | none => exact ⟨_, PipeStep.getSentinel st qrest hnstop hq⟩
  | nil =>
      cases hp : st.pending with
      | cons a rest =>
          exact ⟨_, PipeStep.produce st a rest hp (by rw [hq]; simpa using hC)⟩
      | nil =>
          cases hsent : st.sentinelSent with
          | false =>
              exact ⟨_, PipeStep.putSentinel st hp hsent (by rw [hq]; simpa using hC)⟩
          | true =>
              exfalso
              have hkey := hlay hsent hnstop
              rw [hq] at hkey
              simp at hkey

/-- A stopped consumer has yielded exactly the source sequence. -/
theorem pipe_stopped_yielded {α : Type} {C : ℕ} {src : List α}
    {st : PipeState α} (hinv : PipeInv C src st) (h : st.stopped = true) :
    st.yielded = src := by
  obtain ⟨horder, hlen, hns, hpend, hlay, hstop⟩ := hinv
  have hq := hstop h
  have hsent : st.sentinelSent = true := by
    cases hs : st.sentinelSent with
    | false =>
        have := (hns hs).2
        rw [this] at h
        simp at h
    | true => rfl
  have hp := hpend hsent
  rw [hq, hp] at horder
  simpa [queueItems] using horder

/-- Any state satisfying the invariant can run on to a stopped state
(progress plus termination), by induction on the measure. -/
theorem pipe_progress {α : Type} (C : ℕ) (hC : 1 ≤ C) (src : List α) :
    ∀ (n : ℕ) (st : PipeState α), pipeMeasure st ≤ n → PipeInv C src st →
      ∃ st2, Relation.ReflTransGen (PipeStep C) st st2 ∧ st2.stopped = true := by
  intro n
  induction n with
  | zero =>
      intro st hle hinv
      refine ⟨st, Relation.ReflTransGen.refl, ?_⟩
      cases hstp : st.stopped with
      | true => rfl
      | false =>
          exfalso
          have : 1 ≤ pipeMeasure st := by
            simp [pipeMeasure, hstp]
          omega
  | succ n ih =>
      intro st hle hinv
      cases hstp : st.stopped with
      | true => exact ⟨st, Relation.ReflTransGen.refl, hstp⟩
      | false =>
          obtain ⟨st', hstep⟩ := pipe_step_enabled hC hinv hstp
          have hinv' := pipeInv_step hinv hstep
          have hlt := pipeStep_measure hstep
          obtain ⟨st2, htr, hstop2⟩ := ih st' (by omega) hinv'
          exact ⟨st2, Relation.ReflTransGen.head hstep htr, hstop2⟩

/-- C7: in every reachable state of the background pipeline the queue
never holds more than its capacity `C`; the yielded items, the buffered
items and the unproduced items concatenate to the source sequence (FIFO
order, no loss, no duplication); a stopped consumer has yielded exactly
the source (it never yields the sentinel); and from every reachable state
the run can be completed so that the consumer observes all items. -/
theorem pipeline_fifo_bound_complete {α : Type} (src : List α) (C : ℕ)
    (st : PipeState α) (hC : 1 ≤ C) (hreach : PipeReaches C src st) :
    st.queue.length ≤ C ∧
    st.yielded ++ queueItems st.queue ++ st.pending = src ∧
    (st.stopped = true → st.yielded = src) ∧
    ∃ stFin : PipeState α, Relation.ReflTransGen (PipeStep C) st stFin ∧
      stFin.stopped = true ∧ stFin.yielded = src := by
  have hinv := pipeInv_reaches hreach
  refine ⟨hinv.2.1, hinv.1, fun h => pipe_stopped_yielded hinv h, ?_⟩
  obtain ⟨st2, htr, hstop2⟩ :=
    pipe_progress C hC src (pipeMeasure st) st le_rfl hinv
  exact ⟨st2, htr, hstop2, pipe_stopped_yielded (pipeInv_rtg hinv htr) hstop2⟩

/-- Witness instantiating `pipeline_fifo_bound_complete`: a three-item
source with a capacity-one queue, at the initial state. -/
theorem pipeline_fifo_bound_complete_witness :
    1 ≤ 1 ∧
    ((pipeInit [0, 1, 2] : PipeState ℕ).queue.length ≤ 1 ∧
     (pipeInit [0, 1, 2] : PipeState ℕ).yielded ++
        queueItems (pipeInit [0, 1, 2] : PipeState ℕ).queue ++
        (pipeInit [0, 1, 2] : PipeState ℕ).pending = [0, 1, 2] ∧
     ((pipeInit [0, 1, 2] : PipeState ℕ).stopped = true →
        (pipeInit [0, 1, 2] : PipeState ℕ).yielded = [0, 1, 2]) ∧
     ∃ stFin : PipeState ℕ,
        Relation.ReflTransGen (PipeStep 1) (pipeInit [0, 1, 2]) stFin ∧
        stFin.stopped = true ∧ stFin.yielded = [0, 1, 2]) :=
  ⟨by norm_num,
   pipeline_fifo_bound_complete [0, 1, 2] 1 (pipeInit [0, 1, 2]) (by norm_num)
     Relation.ReflTransGen.refl⟩
